import Mathlib

set_option maxHeartbeats 1000000

/-!
Shallow embedding of the PDF retrieval and ranking engine of the
AI_Pdf_Prompter repository, together with theorems settling the frozen
claims about it.

The engine lives in two near-duplicate route handlers:
* `src/app/api/query-pdf/route.ts` (query classifier, recency resolver,
  ranking engine with recency boost, specific/generic chunk selection,
  response shaping), embedded below with its source names where Lean
  allows, and
* the unnamed route `src/unnamed/part_001` (recent-document-only search:
  per-source max-timestamp recency resolver, relevance filter with raw
  fallback, `selectOptimalChunks`).

JavaScript numbers are modelled as rationals (`ℚ`); `x.score || 0` /
`x.score ?? 0` become `Option.getD 0`; the string-falsiness of `||` on
possibly-empty strings is modelled by `strOrElse`.  `Array.prototype.sort`
with a custom comparator is modelled as the stable insertion sort
`List.insertionSort r` with `r a b := cmp a b ≤ 0` (an element is placed
before the first already-sorted element it does not compare after, which
is the stable order a comparator-respecting sort produces).
-/

/-- JS `a || b` where `a` is a possibly-absent string: `undefined`, `null`
and the empty string are all falsy and fall through to `b`. -/
def strOrElse (a : Option String) (b : String) : String :=
  match a with
  | some s => if s = "" then b else s
  | none => b

/-- The metadata stored with each vector in the index
(`src/unnamed/part_001`, interface `PineconeMatch`). -/
structure Metadata where
  text : Option String
  source : Option String
  filename : Option String
  timestamp : Option ℚ
  chunkIndex : Option ℕ
deriving DecidableEq

/-- One retrieval result from the vector index. -/
structure Match where
  id : String
  score : Option ℚ
  metadata : Option Metadata
deriving DecidableEq

/-- JS `match.score || 0` (also `match.score ?? 0`): a missing score
defaults to `0`. -/
def score0 (m : Match) : ℚ := m.score.getD 0

/-- JS `Number(match.metadata?.timestamp || 0)`. -/
def ts0 (m : Match) : ℚ := (m.metadata.bind Metadata.timestamp).getD 0

/-- JS `String(match.metadata?.source || match.metadata?.filename || "unknown")`
(route.ts lines 129-131, part_001 lines 62-64). -/
def sourceKey (m : Match) : String :=
  strOrElse (m.metadata.bind Metadata.source)
    (strOrElse (m.metadata.bind Metadata.filename) "unknown")

/-- JS `Math.max(...)` over a list of numbers; the empty case (JS
`-Infinity`) never arises on the paths embedded here, where the code
either guards on non-emptiness first or explicitly treats the empty
maximum as `0`. -/
def listMax : List ℚ → ℚ
  | [] => 0
  | x :: xs => xs.foldl max x

/-- JS `Math.round`. -/
def jsRound (q : ℚ) : ℤ := ⌊q + 1 / 2⌋

/-! ### Query classifier (`isGenericQuery`, route.ts lines 16-41) -/

/-- JS regex class `\w`: ASCII letters, digits and underscore. -/
def isWordChar (c : Char) : Bool := c.isAlphanum || c == '_'

/-- JS regex class `\s` (modelled by the ASCII whitespace characters). -/
def isSpaceChar (c : Char) : Bool := c.isWhitespace

/-- JS `String.prototype.trim`. -/
def trimChars (l : List Char) : List Char :=
  ((l.dropWhile isSpaceChar).reverse.dropWhile isSpaceChar).reverse

/-- JS `.replace(/[^\w\s]/g, "")`: drop every character that is neither a
word character nor whitespace. -/
def stripPunct (l : List Char) : List Char :=
  l.filter (fun c => isWordChar c || isSpaceChar c)

/-- Worker for `collapseWs`; the flag records whether the previous kept
character position was inside a whitespace run. -/
def collapseWsAux : Bool → List Char → List Char
  | _, [] => []
  | prevWs, c :: cs =>
    if isSpaceChar c then
      if prevWs then collapseWsAux true cs
      else ' ' :: collapseWsAux true cs
    else c :: collapseWsAux false cs

/-- JS `.replace(/\s+/g, " ")`: each maximal whitespace run becomes one
space. -/
def collapseWs (l : List Char) : List Char := collapseWsAux false l

/-- Does `needle` occur at the front of the second list? -/
def frontMatch : List Char → List Char → Bool
  | [], _ => true
  | _ :: _, [] => false
  | a :: as, b :: bs => a == b && frontMatch as bs

/-- JS `String.prototype.includes`. -/
def containsSub (needle : List Char) : List Char → Bool
  | [] => frontMatch needle []
  | c :: cs => frontMatch needle (c :: cs) || containsSub needle cs

/-- The fixed generic-intent phrase set (route.ts lines 21-36). -/
def genericIndicators : List String :=
  ["bullet points", "summary", "overview", "what is this pdf about",
   "what is this document about", "tell me about this pdf",
   "tell me about this document", "explain this pdf",
   "explain this document", "main points", "key points", "summarize",
   "content", "topics"]

/-- The normalization the classifier applies to the query:
lowercase, trim, strip punctuation, collapse whitespace
(route.ts lines 17-19). -/
def normalizeQuery (q : String) : List Char :=
  collapseWs (stripPunct (trimChars (q.toList.map Char.toLower)))

/-- The normalization applied to each indicator before the containment
test (route.ts line 39). -/
def normalizeIndicator (s : String) : List Char :=
  collapseWs (stripPunct s.toList)

/-- `isGenericQuery` (route.ts lines 16-41). -/
def isGenericQuery (query : String) : Bool :=
  genericIndicators.any fun indicator =>
    containsSub (normalizeIndicator indicator) (normalizeQuery query)

/-! ### Grouping matches by document (route.ts lines 126-136) -/

/-- Append match `m` to the group keyed `key`, creating the group at the
end when absent (JS object insertion order). -/
def insertGrouped (key : String) (m : Match) :
    List (String × List Match) → List (String × List Match)
  | [] => [(key, [m])]
  | (k, ms) :: rest =>
    if k = key then (k, ms ++ [m]) :: rest
    else (k, ms) :: insertGrouped key m rest

/-- `matchesByDocument` (route.ts lines 126-136): group the raw matches by
their source key, preserving encounter order of both groups and members. -/
def groupByDocument (l : List Match) : List (String × List Match) :=
  l.foldl (fun acc m => insertGrouped (sourceKey m) m acc) []

/-- First-match lookup of a group, JS `matchesByDocument[key]`. -/
def lookupGroup : List (String × List Match) → String → Option (List Match)
  | [], _ => none
  | (k, ms) :: rest, key => if k = key then some ms else lookupGroup rest key

/-! ### Ranking engine (route.ts lines 178-217) -/

/-- `RankedSource` (route.ts lines 199-209): the per-document ranking
record. -/
structure RankedSource where
  source : String
  «matches» : List Match
  maxScore : ℚ
  avgScore : ℚ
  finalScore : ℚ
  timestamp : ℚ
  matchCount : ℕ
  recencyBoost : ℚ
  ageInMinutes : ℚ
deriving DecidableEq

/-- The recency-boost step schedule (route.ts lines 191-195):
`0.2` under 5 minutes, `0.1` under 30, `0.05` under 120, else `0`. -/
def recencyBoostOf (ageInMinutes : ℚ) : ℚ :=
  if ageInMinutes < 5 then 1 / 5
  else if ageInMinutes < 30 then 1 / 10
  else if ageInMinutes < 120 then 1 / 20
  else 0

/-- The map body of the ranking pass (route.ts lines 181-210). -/
def mkRankedSource (currentTime : ℚ) (group : String × List Match) :
    RankedSource :=
  let maxScore := listMax (group.2.map score0)
  let avgScore := (group.2.map score0).sum / (group.2.length : ℚ)
  let timestamp : ℚ :=
    match group.2.head? with
    | some m => ts0 m
    | none => 0
  let ageInMinutes := (currentTime - timestamp) / (1000 * 60)
  let recencyBoost := recencyBoostOf ageInMinutes
  { source := group.1
    «matches» := group.2
    maxScore := maxScore
    avgScore := avgScore
    finalScore := maxScore + recencyBoost
    timestamp := timestamp
    matchCount := group.2.length
    recencyBoost := recencyBoost
    ageInMinutes := ageInMinutes }

/-- The sort comparator of the ranking pass (route.ts lines 211-217):
score-descending when the final scores differ by more than `0.05`,
otherwise timestamp-descending. -/
def cmpRankedSource (a b : RankedSource) : ℚ :=
  if |a.finalScore - b.finalScore| > 1 / 20 then b.finalScore - a.finalScore
  else b.timestamp - a.timestamp

/-- `a` may come before `b` under the ranking comparator. -/
def rRank (a b : RankedSource) : Prop := cmpRankedSource a b ≤ 0

instance : DecidableRel rRank := fun a b =>
  inferInstanceAs (Decidable (cmpRankedSource a b ≤ 0))

/-- `rankedSources` (route.ts lines 180-217): rank every document group. -/
def rankSources (groups : List (String × List Match)) (currentTime : ℚ) :
    List RankedSource :=
  List.insertionSort rRank (groups.map (mkRankedSource currentTime))

/-! ### Specific-query chunk selection (route.ts lines 229-301) -/

/-- A selected context chunk (route.ts lines 243-253); `text` is `none`
when the stored metadata text was not a string, such chunks are dropped by
the trailing filter. -/
structure SelChunk where
  text : Option String
  score : ℚ
  id : String
  source : String
  chunkIndex : Option ℕ
  isPrimary : Bool
deriving DecidableEq

def PRIMARY_SOURCE_CHUNKS : ℕ := 8
def SECONDARY_SOURCE_CHUNKS : ℕ := 2

/-- The chunk-shaping map body (route.ts lines 243-253 and 275-285). -/
def mkChunkFrom (source : String) (isPrimary : Bool) (m : Match) : SelChunk :=
  { text := m.metadata.bind Metadata.text
    score := m.score.getD 0
    id := m.id
    source := source
    chunkIndex := m.metadata.bind Metadata.chunkIndex
    isPrimary := isPrimary }

/-- Primary-source chunks (route.ts lines 232-262): filter by
`min(maxScore * 0.7, 0.05)`, cap at 8, mark primary, drop null text. -/
def primaryChunksOf (rs : RankedSource) : List SelChunk :=
  ((((rs.matches.filter fun m =>
        m.score.getD 0 > min (rs.maxScore * (7 / 10)) (1 / 20)).take
      PRIMARY_SOURCE_CHUNKS).map (mkChunkFrom rs.source true)).filter
    fun c => c.text.isSome)

/-- Secondary-source chunks (route.ts lines 264-294): filter by
`min(maxScore * 0.8, 0.08)`, cap at 2, mark secondary, drop null text. -/
def secondaryChunksOf (rs : RankedSource) : List SelChunk :=
  ((((rs.matches.filter fun m =>
        m.score.getD 0 > min (rs.maxScore * (4 / 5)) (2 / 25)).take
      SECONDARY_SOURCE_CHUNKS).map (mkChunkFrom rs.source false)).filter
    fun c => c.text.isSome)

/-- The final-chunk comparator (route.ts lines 296-301): primaries first,
then score descending. -/
def cmpChunk (a b : SelChunk) : ℚ :=
  if a.isPrimary ≠ b.isPrimary then (if a.isPrimary then -1 else 1)
  else b.score - a.score

/-- `a` may come before `b` under the final-chunk comparator. -/
def rChunk (a b : SelChunk) : Prop := cmpChunk a b ≤ 0

instance : DecidableRel rChunk := fun a b =>
  inferInstanceAs (Decidable (cmpChunk a b ≤ 0))

/-- The `finalChunks` accumulator after the primary push (route.ts lines
232-262): empty when `rankedSources[0]` is absent. -/
def fc1Of (rankedSources : List RankedSource) : List SelChunk :=
  match rankedSources.head? with
  | none => []
  | some rs0 => primaryChunksOf rs0

/-- The `finalChunks` accumulator after the conditional secondary push
(route.ts lines 264-294): secondary chunks are appended only when
`rankedSources[1]` exists and fewer than 4 chunks were collected. -/
def fc2Of (rankedSources : List RankedSource) : List SelChunk :=
  match rankedSources.get? 1 with
  | none => fc1Of rankedSources
  | some rs1 =>
    if (fc1Of rankedSources).length < 4 then
      fc1Of rankedSources ++ secondaryChunksOf rs1
    else fc1Of rankedSources

/-- The specific-query branch of the selector (route.ts lines 229-301):
primary chunks, then secondary chunks only when fewer than 4 were
collected and a second-ranked source exists, then the primary-first,
score-descending sort. -/
def selectSpecific (rankedSources : List RankedSource) : List SelChunk :=
  List.insertionSort rChunk (fc2Of rankedSources)

/-! ### Route-level recency resolver (route.ts lines 43-58) -/

/-- One step of the `Object.entries(...).forEach` scan that both recency
resolvers share: keep the entry with the strictly larger timestamp. -/
def pickStep (acc : Option String × ℚ) (p : String × ℚ) : Option String × ℚ :=
  if p.2 > acc.2 then (some p.1, p.2) else acc

/-- `getMostRecentDocument` of route.ts (lines 43-58): for each group the
timestamp of the FIRST match is consulted, and the scan starts from
`(null, 0)`. -/
def Route.getMostRecentDocument
    (matchesByDocument : List (String × List Match)) : Option String :=
  (matchesByDocument.foldl
    (fun acc p =>
      pickStep acc
        (p.1,
          match p.2.head? with
          | some m => ts0 m
          | none => 0))
    ((none : Option String), (0 : ℚ))).1

/-! ### Generic-query selection and the route response (route.ts lines 144-360) -/

/-- The match comparator of the generic branch (route.ts line 151):
score descending. -/
def rScoreDesc (a b : Match) : Prop := score0 b - score0 a ≤ 0

instance : DecidableRel rScoreDesc := fun a b =>
  inferInstanceAs (Decidable (score0 b - score0 a ≤ 0))

/-- Generic-branch chunks (route.ts lines 150-164): sort the recent
document's matches by score, keep 10, shape, drop null text. -/
def genericChunks (recentDoc : String) (ms : List Match) : List SelChunk :=
  (((List.insertionSort rScoreDesc ms).take 10).map
    (mkChunkFrom recentDoc true)).filter fun c => c.text.isSome

/-- One `sourceBreakdown` entry (route.ts lines 317-337); the generic and
specific branches populate different subsets of the fields, absent fields
are `none`.  The `toFixed(3)` string formatting of the specific branch is
presentation only and is not modelled. -/
structure SBEntry where
  source : String
  chunks : ℕ
  strategy : Option String
  timestamp : Option ℚ
  relevance : Option ℚ
  finalScore : Option ℚ
  recencyBoost : Option ℚ
  ageMinutes : Option ℤ
deriving DecidableEq

/-- The specific-branch `sourceBreakdown` map body (route.ts lines
330-337). -/
def mkSBEntrySpecific (s : RankedSource) : SBEntry :=
  { source := s.source
    chunks := s.matchCount
    strategy := none
    timestamp := none
    relevance := some s.maxScore
    finalScore := some s.finalScore
    recencyBoost := some s.recencyBoost
    ageMinutes := some (jsRound s.ageInMinutes) }

/-- The JSON response of the query-pdf route (route.ts lines 312-360);
`indexStats`, `queryInfo.original` and `queryInfo.enhanced` are
presentation fields without retrieval logic and are not modelled. -/
structure RouteResponse where
  status : ℕ
  error : Option String
  matchedChunks : List SelChunk
  totalMatches : ℕ
  primarySource : String
  sourceBreakdown : List SBEntry
  strategy : String
deriving DecidableEq

/-- The POST handler of route.ts (lines 79-368) as a pure function of the
query text, the raw global matches (the Pinecone reply) and the current
time.  The external collaborators (embedding model, index) are abstracted
into the `matches` argument; the `catch` branch (collaborator failure) is
outside the pure model.

The outer `let rankedSources: any[] = []` of line 142 is shadowed at line
180 by the specific branch's own `const rankedSources`, so the response
at lines 330-337 maps over the never-reassigned outer binding; the model
keeps both bindings to preserve that behaviour. -/
def postQueryRoute (query : String) («matches» : List Match) (now : ℚ) :
    RouteResponse :=
  if query = "" then
    { status := 400, error := some "Query is required", matchedChunks := []
      totalMatches := 0, primarySource := "", sourceBreakdown := []
      strategy := "" }
  else if 0 < «matches».length then
    let isGeneric := isGenericQuery query
    let matchesByDocument := groupByDocument «matches»
    let rankedSourcesOuter : List RankedSource := []
    if isGeneric then
      let step :=
        match Route.getMostRecentDocument matchesByDocument with
        | some recentDoc =>
          match lookupGroup matchesByDocument recentDoc with
          | some ms => some (recentDoc, ms)
          | none => none
        | none => none
      match step with
      | some (recentDoc, ms) =>
        let finalChunks := genericChunks recentDoc ms
        { status := 200, error := none, matchedChunks := finalChunks
          totalMatches := «matches».length, primarySource := recentDoc
          sourceBreakdown :=
            if recentDoc = "" then []
            else
              [{ source := recentDoc, chunks := finalChunks.length
                 strategy := some "most_recent"
                 timestamp :=
                   ms.head?.bind fun m => m.metadata.bind Metadata.timestamp
                 relevance := none, finalScore := none, recencyBoost := none
                 ageMinutes := none }]
          strategy := "recent_document" }
      | none =>
        { status := 200, error := none, matchedChunks := []
          totalMatches := «matches».length, primarySource := ""
          sourceBreakdown := [], strategy := "recent_document" }
    else
      let rankedSources := rankSources matchesByDocument now
      let finalChunks := selectSpecific rankedSources
      let primarySource :=
        match rankedSources.head? with
        | some rs => rs.source
        | none => ""
      { status := 200, error := none, matchedChunks := finalChunks
        totalMatches := «matches».length, primarySource := primarySource
        sourceBreakdown := rankedSourcesOuter.map mkSBEntrySpecific
        strategy := "relevance_based" }
  else
    { status := 200, error := none, matchedChunks := [], totalMatches := 0
      primarySource := "", sourceBreakdown := [], strategy := "" }

/-! ### The recent-document-only route (`src/unnamed/part_001`) -/

namespace RecentOnly

def MAX_CHUNKS : ℕ := 10
def MAX_CONTEXT_CHARS : ℕ := 12000
def MIN_RELEVANCE_SCORE : ℚ := 1 / 10

/-- One `documentTimestamps[source]` update (part_001 lines 61-73): the
stored value is overwritten when it is absent, falsy (`0`), or smaller
than the incoming timestamp.  Only the first entry with the key is
touched; keys stay unique because entries are only created when the key
is absent. -/
def upsertTs : List (String × ℚ) → String → ℚ → List (String × ℚ)
  | [], k, t => [(k, t)]
  | (k₀, t₀) :: rest, k, t =>
    if k₀ = k then
      (if t₀ = 0 ∨ t > t₀ then (k₀, t) :: rest else (k₀, t₀) :: rest)
    else (k₀, t₀) :: upsertTs rest k t

/-- The `forEach` accumulation of per-source maximum timestamps
(part_001 lines 59-73). -/
def docTimestampsAux : List (String × ℚ) → List Match → List (String × ℚ)
  | acc, [] => acc
  | acc, m :: rest => docTimestampsAux (upsertTs acc (sourceKey m) (ts0 m)) rest

/-- `documentTimestamps` (part_001 lines 59-73). -/
def documentTimestamps (sample : List Match) : List (String × ℚ) :=
  docTimestampsAux [] sample

/-- `getMostRecentDocument` of part_001 (lines 46-95): per-source maximum
stored timestamps, then the source with the strictly largest one, the
scan starting from `(null, 0)`.  The corpus sample (the broad dummy-vector
query of lines 48-53) is the function's argument. -/
def getMostRecentDocument (sample : List Match) : Option String :=
  if sample.isEmpty then none
  else ((documentTimestamps sample).foldl pickStep
    ((none : Option String), (0 : ℚ))).1

/-- A shaped context chunk (part_001 interface `ProcessedChunk`). -/
structure ProcessedChunk where
  text : String
  score : ℚ
  id : String
  source : String
  chunkIndex : Option ℕ
  isPrimary : Bool
deriving DecidableEq

set_option linter.unusedVariables false in
/-- `selectOptimalChunks` (part_001 lines 250-263): keep the first
`maxChunks` matches and shape them; `maxChars` is accepted but unused,
exactly as in the source. -/
def selectOptimalChunks («matches» : List Match) (maxChunks : ℕ)
    (maxChars : ℕ) : List ProcessedChunk :=
  («matches».take maxChunks).map fun m =>
    { text := (m.metadata.bind Metadata.text).getD ""
      score := m.score.getD 0
      id := m.id
      source := strOrElse (m.metadata.bind Metadata.source) "unknown"
      chunkIndex := m.metadata.bind Metadata.chunkIndex
      isPrimary := true }

/-- The relevance filter and fallback of the POST handler (part_001 lines
182-192): select from the matches clearing `MIN_RELEVANCE_SCORE` when any
do, otherwise from the first five raw matches. -/
def p1Selection (searchMatches : List Match) : List ProcessedChunk :=
  let filteredMatches :=
    searchMatches.filter fun m => score0 m ≥ MIN_RELEVANCE_SCORE
  selectOptimalChunks
    (if 0 < filteredMatches.length then filteredMatches
     else searchMatches.take 5)
    MAX_CHUNKS MAX_CONTEXT_CHARS

/-- The JSON response of the part_001 route; `sourceBreakdown` and
`queryInfo` are presentation summaries of fields already present and are
not modelled. -/
structure P1Response where
  status : ℕ
  error : Option String
  matchedChunks : List ProcessedChunk
  totalMatches : ℕ
  primarySource : Option String
  searchStrategy : Option String
  contextMessage : Option String
deriving DecidableEq

/-- The POST handler of part_001 (lines 145-248) as a pure function.  The
corpus sample drives the recency resolver; `searchFn` abstracts the
filtered similarity query of `searchInRecentDocumentOnly` (lines
97-143); `bestScore` is the maximum score of those matches, as computed
there.  The `catch` branches (collaborator failure) are outside the pure
model. -/
def p1Post (query : String) (sample : List Match)
    (searchFn : String → List Match) : P1Response :=
  if query = "" then
    { status := 400, error := some "Query is required", matchedChunks := []
      totalMatches := 0, primarySource := none, searchStrategy := none
      contextMessage := none }
  else
    match getMostRecentDocument sample with
    | none =>
      { status := 200, error := some "No documents found in the system"
        matchedChunks := [], totalMatches := 0, primarySource := none
        searchStrategy := none, contextMessage := none }
    | some mostRecentDoc =>
      let searchMatches := searchFn mostRecentDoc
      if searchMatches.isEmpty then
        { status := 200, error := none, matchedChunks := []
          totalMatches := 0, primarySource := some mostRecentDoc
          searchStrategy := some "recent_document_only"
          contextMessage := some
            ("No relevant information found in your most recent document: "
              ++ mostRecentDoc
              ++ ". You might want to rephrase your question or ask about different topics covered in this document.") }
      else
        let bestScore := listMax (searchMatches.map score0)
        let finalChunks := p1Selection searchMatches
        let matchedChunks :=
          finalChunks.map fun c => { c with isPrimary := true }
        let contextMessage :=
          if bestScore ≥ 3 / 10 then
            "Found relevant information in your most recent document: "
              ++ mostRecentDoc
          else if bestScore ≥ 3 / 20 then
            "Found some information in your most recent document: "
              ++ mostRecentDoc
              ++ ". The matches are moderate - consider rephrasing for better results."
          else
            "Searched your most recent document: " ++ mostRecentDoc
              ++ ". The matches have low confidence - this topic might not be well covered in this document."
        { status := 200, error := none, matchedChunks := matchedChunks
          totalMatches := searchMatches.length
          primarySource := some mostRecentDoc
          searchStrategy := some "recent_document_only"
          contextMessage := some contextMessage }

end RecentOnly

/-! ### Spec-modelled orchestrator escalation -/

/-- Deduplicate keeping first occurrences (worker). -/
def dedupAux (seen : List String) : List String → List String
  | [] => []
  | s :: rest =>
    if s ∈ seen then dedupAux seen rest
    else s :: dedupAux (s :: seen) rest

/-- Deduplicate a source list keeping first occurrences. -/
def dedupKeepFirst (l : List String) : List String := dedupAux [] l

/-- Modelled from the spec: thresholds of spec section 4.6; the
escalating orchestrator that uses them is code of this repository missing
from `src/`. -/
def CONTEXT_SEARCH_THRESHOLD : ℚ := 1 / 4

/-- Modelled from the spec: see `CONTEXT_SEARCH_THRESHOLD`. -/
def PRIMARY_THRESHOLD : ℚ := 1 / 5

/-- The escalating orchestrator's outcome for one specific query. -/
structure OrchSpecificResult where
  searchStrategy : String
  matchedChunks : List SelChunk
  alternativeSources : List String
deriving DecidableEq

/-- Modelled from the spec: the specific-query arm of the Search Strategy
Orchestrator (spec section 4.6 step 5) — its escalation code is not under
`src/` (only the never-escalating variants are).  Following the spec's
words: if the best score in the most recent document reaches
`PRIMARY_THRESHOLD` the document is accepted as sufficient; else if it is
below `CONTEXT_SEARCH_THRESHOLD` a corpus-wide query is run, giving
`cross_document_search` (with alternative sources deduplicated, filtered
to score above `PRIMARY_THRESHOLD` and excluding the recent document)
when the best global score clears `PRIMARY_THRESHOLD`, and the terminal
zero-chunk `topic_not_found` otherwise; else the moderate acceptance.
Chunk selection over the accepted match set follows spec step 6 (the
ranking and selection rules embedded above from route.ts). -/
def orchestrateSpecific (recentDoc : String) (recentMatches : List Match)
    (globalMatches : List Match) (now : ℚ) : OrchSpecificResult :=
  let bestScoreInRecentDoc := listMax (recentMatches.map score0)
  if bestScoreInRecentDoc ≥ PRIMARY_THRESHOLD then
    { searchStrategy := "recent_document_sufficient"
      matchedChunks := selectSpecific (rankSources (groupByDocument recentMatches) now)
      alternativeSources := [] }
  else if bestScoreInRecentDoc < CONTEXT_SEARCH_THRESHOLD then
    let bestGlobalScore := listMax (globalMatches.map score0)
    if bestGlobalScore > PRIMARY_THRESHOLD then
      { searchStrategy := "cross_document_search"
        matchedChunks := selectSpecific (rankSources (groupByDocument globalMatches) now)
        alternativeSources := dedupKeepFirst
          (((globalMatches.filter fun m => score0 m > PRIMARY_THRESHOLD).map
            sourceKey).filter fun s => s ≠ recentDoc) }
    else
      { searchStrategy := "topic_not_found", matchedChunks := []
        alternativeSources := [] }
  else
    { searchStrategy := "recent_document_moderate"
      matchedChunks := selectSpecific (rankSources (groupByDocument recentMatches) now)
      alternativeSources := [] }

/-! ### Claim-statement vocabulary -/

/-- Fold maximum with base `0`. -/
def foldMax0 (l : List ℚ) : ℚ := l.foldr max 0

/-- The maximum stored (effective) timestamp among a source's matches in
a sample, `0` when the source has none. -/
def perSourceMax (sample : List Match) (s : String) : ℚ :=
  foldMax0 ((sample.filter fun m => sourceKey m = s).map ts0)

/-! ### Concrete inputs used by witnesses and counterexamples -/

/-- Constructor for concrete test matches with full metadata. -/
def mkM (id source : String) (sc ts : ℚ) (txt : String) : Match :=
  { id := id
    score := some sc
    metadata := some
      { text := some txt, source := some source, filename := none
        timestamp := some ts, chunkIndex := some 0 } }

/-- A reference time far after every test timestamp, so that every
recency boost is `0`. -/
def tOld : ℚ := 7200000000

def cex2A : Match := mkM "a1" "a.pdf" 0 100 "ta"
def cex2B : Match := mkM "b1" "b.pdf" (1 / 25) 50 "tb"
def cex2C : Match := mkM "c1" "c.pdf" (2 / 25) 10 "tc"

/-- A match whose stored timestamp is `0`. -/
def cex4Zero : Match := mkM "x1" "a.pdf" (1 / 2) 0 "t"

/-- A match with a positive timestamp. -/
def w4Pos : Match := mkM "s1" "a.pdf" (1 / 2) 5 "t"

/-- A match scoring below `MIN_RELEVANCE_SCORE`. -/
def cexLow : Match := mkM "l1" "a.pdf" (1 / 20) 5 "lowtext"

/-- A match scoring above `MIN_RELEVANCE_SCORE`. -/
def wGood : Match := mkM "g1" "a.pdf" (1 / 2) 5 "goodtext"

def lowFn : String → List Match := fun _ => [cexLow]
def goodFn : String → List Match := fun _ => [wGood]
def emptyFn : String → List Match := fun _ => []

/-- Recent-document match scoring `0.22`, between the two orchestrator
thresholds. -/
def cex1R : Match := mkM "r1" "new.pdf" (11 / 50) 5 "tr"

/-- Recent-document match scoring `0.1`, below both thresholds. -/
def w1R : Match := mkM "r2" "new.pdf" (1 / 10) 5 "tr2"

/-- A strong global match in another document. -/
def cex1G : Match := mkM "g1" "old.pdf" (2 / 5) 3 "tg"

def wP1 : Match := mkM "p1" "p.pdf" (1 / 2) 30 "tp1"
def wP2 : Match := mkM "p2" "p.pdf" (3 / 10) 30 "tp2"
def wQ1 : Match := mkM "q1" "q.pdf" (2 / 5) 20 "tq1"

/-- A one-group input to the ranking engine. -/
def wGroups6 : List (String × List Match) := [("p.pdf", [wP1])]

/-- The ranked source the engine produces for `wGroups6`. -/
def wRS6 : RankedSource := mkRankedSource tOld ("p.pdf", [wP1])

/-- The final-chunk comparator is a total preorder (unlike the ranking
comparator): totality. -/
instance : IsTotal SelChunk rChunk where
  total a b := by
    unfold rChunk cmpChunk
    cases ha : a.isPrimary <;> cases hb : b.isPrimary <;> simp [ha, hb] <;>
      rcases le_total a.score b.score with h | h <;>
      first
        | (left; linarith)
        | (right; linarith)

/-- The final-chunk comparator is a total preorder: transitivity. -/
instance : IsTrans SelChunk rChunk where
  trans a b c hab hbc := by
    unfold rChunk cmpChunk at hab hbc ⊢
    cases ha : a.isPrimary <;> cases hb : b.isPrimary <;>
      cases hc : c.isPrimary <;> simp_all <;> linarith

/-! ## Theorems -/

/-- Each generic indicator is left unchanged by the normalization the
classifier applies to it. -/
theorem normalizeIndicator_id :
    ∀ p ∈ genericIndicators, normalizeIndicator p = p.toList := by decide

/-- C3: the classifier returns Generic exactly when the normalized query
contains one of the fixed generic-intent phrases as a substring, and its
result depends only on the lowercased query (case-insensitivity) and only
on the normalized query (punctuation/whitespace-insensitivity);
as a Lean function it is deterministic and side-effect free. -/
theorem isGenericQuery_spec (q : String) :
    (isGenericQuery q = true ↔
      ∃ p ∈ genericIndicators, containsSub p.toList (normalizeQuery q) = true)
    ∧ (∀ q₂ : String, q.toList.map Char.toLower = q₂.toList.map Char.toLower →
        isGenericQuery q = isGenericQuery q₂)
    ∧ (∀ q₂ : String, normalizeQuery q = normalizeQuery q₂ →
        isGenericQuery q = isGenericQuery q₂) := by
  refine ⟨?_, ?_, ?_⟩
  · unfold isGenericQuery
    rw [List.any_eq_true]
    constructor
    · rintro ⟨p, hp, hc⟩
      exact ⟨p, hp, normalizeIndicator_id p hp ▸ hc⟩
    · rintro ⟨p, hp, hc⟩
      exact ⟨p, hp, (normalizeIndicator_id p hp).symm ▸ hc⟩
  · intro q₂ h
    unfold isGenericQuery normalizeQuery
    rw [h]
  · intro q₂ h
    unfold isGenericQuery
    rw [h]

/-- Witness for C3. -/
theorem isGenericQuery_spec_witness :
    isGenericQuery "Can I get a Summary?" = true ∧
    isGenericQuery "What was the verdict" =
      isGenericQuery "WHAT WAS the Verdict" :=
  ⟨(isGenericQuery_spec "Can I get a Summary?").1.mpr
      ⟨"summary", by decide, by decide⟩,
    (isGenericQuery_spec "What was the verdict").2.1 "WHAT WAS the Verdict"
      (by decide)⟩

/-- Inserting into a list whose adjacent pairs respect a weakly total
comparator order preserves that property (no transitivity needed). -/
theorem chain_orderedInsert {α : Type} (r : α → α → Prop) [DecidableRel r]
    (htot : ∀ x y, ¬ r x y → r y x) (a : α) :
    ∀ l : List α, l.Chain' r → (l.orderedInsert r a).Chain' r := by
  intro l
  induction l with
  | nil => intro _; simp
  | cons b l ih =>
    intro h
    by_cases hab : r a b
    · simpa [List.orderedInsert, hab] using List.chain'_cons.mpr ⟨hab, h⟩
    · have htail : (l.orderedInsert r a).Chain' r := ih h.tail
      have hhead : ∀ y ∈ (l.orderedInsert r a).head?, r b y := by
        intro y hy
        cases l with
        | nil =>
          simp [List.orderedInsert] at hy
          subst hy
          exact htot a b hab
        | cons c l' =>
          by_cases hac : r a c
          · simp [List.orderedInsert, hac] at hy
            subst hy
            exact htot a b hab
          · simp [List.orderedInsert, hac] at hy
            subst hy
            exact (List.chain'_cons.mp h).1
      simpa [List.orderedInsert, hab] using
        List.chain'_cons'.mpr ⟨hhead, htail⟩

/-- Insertion sort with a weakly total comparator order leaves every
adjacent pair of its output respecting the comparator. -/
theorem chain_insertionSort {α : Type} (r : α → α → Prop) [DecidableRel r]
    (htot : ∀ x y, ¬ r x y → r y x) :
    ∀ l : List α, (List.insertionSort r l).Chain' r := by
  intro l
  induction l with
  | nil => simp
  | cons b l ih =>
    simpa [List.insertionSort] using chain_orderedInsert r htot b _ ih

/-- The ranking comparator is weakly total (it is antisymmetric in sign). -/
theorem rRank_total : ∀ a b : RankedSource, ¬ rRank a b → rRank b a := by
  intro a b h
  unfold rRank cmpRankedSource at h ⊢
  rw [abs_sub_comm]
  by_cases hd : |a.finalScore - b.finalScore| > 1 / 20
  · rw [if_pos hd] at h ⊢
    push_neg at h
    linarith
  · rw [if_neg hd] at h ⊢
    push_neg at h
    linarith

/-- C2 (amended): in the ranking engine's output, every ADJACENT pair of
ranked sources is ordered by descending `finalScore` when the two final
scores differ by more than `0.05`, and by descending `timestamp` (weakly:
the later-or-equal timestamp first) when they differ by at most `0.05` —
even when the earlier source's `finalScore` is the smaller one.  For
non-adjacent pairs the property can fail (see the counterexample), since
the near-tie comparator is not transitive. -/
theorem rankSources_adjacent_order
    (groups : List (String × List Match)) (now : ℚ) :
    (rankSources groups now).Chain' fun a b =>
      (|a.finalScore - b.finalScore| > 1 / 20 → b.finalScore < a.finalScore) ∧
      (|a.finalScore - b.finalScore| ≤ 1 / 20 → b.timestamp ≤ a.timestamp) := by
  have h := chain_insertionSort rRank rRank_total
    (groups.map (mkRankedSource now))
  unfold rankSources
  refine h.imp ?_
  intro a b hab
  unfold rRank cmpRankedSource at hab
  constructor
  · intro hgt
    rw [if_pos hgt] at hab
    by_contra hnot
    push_neg at hnot
    have hz : a.finalScore - b.finalScore = 0 := by linarith
    rw [hz] at hgt
    norm_num at hgt
  · intro hle
    rw [if_neg (not_lt.mpr hle)] at hab
    linarith

/-- Witness for the amended C2. -/
theorem rankSources_adjacent_order_witness :
    (rankSources (groupByDocument [cex2A, cex2B, cex2C]) tOld).Chain'
      fun a b =>
        (|a.finalScore - b.finalScore| > 1 / 20 →
          b.finalScore < a.finalScore) ∧
        (|a.finalScore - b.finalScore| ≤ 1 / 20 →
          b.timestamp ≤ a.timestamp) :=
  rankSources_adjacent_order (groupByDocument [cex2A, cex2B, cex2C]) tOld

/-- Counterexample to C2 as stated: on the three documents of
`cex2A/cex2B/cex2C` (final scores `0`, `0.04`, `0.08`, timestamps `100`,
`50`, `10`) the ranking engine outputs the order `[0, 0.04, 0.08]` — the
first and third ranked sources differ by `0.08 > 0.05` yet appear in
ASCENDING `finalScore` order, because each adjacent pair is a near-tie
won by the earlier timestamp-larger source.  No output order satisfies
the claim for this input: its pairwise requirements are cyclic. -/
theorem rankSources_pairwise_cex :
    ((rankSources (groupByDocument [cex2A, cex2B, cex2C]) tOld).map
        RankedSource.finalScore).get? 0 = some 0 ∧
    ((rankSources (groupByDocument [cex2A, cex2B, cex2C]) tOld).map
        RankedSource.finalScore).get? 2 = some (2 / 25) ∧
    |(0 : ℚ) - 2 / 25| > 1 / 20 ∧ ¬ ((2 : ℚ) / 25 ≤ 0) := by
  refine ⟨?_, ?_, by norm_num [abs_of_nonpos], by norm_num⟩ <;>
    norm_num +decide [rankSources, groupByDocument, insertGrouped, sourceKey,
      strOrElse, mkRankedSource, listMax, score0, ts0, cex2A, cex2B, cex2C,
      mkM, tOld, List.insertionSort, List.orderedInsert, rRank,
      cmpRankedSource, recencyBoostOf, List.foldl_cons, List.foldl_nil,
      abs_of_nonneg, abs_of_nonpos]

/-- C6: every ranked source the ranking engine outputs carries a
`recencyBoost` equal to the step schedule at its age (`+0.20` under 5
minutes, `+0.10` under 30, `+0.05` under 120, else `0`), its `finalScore`
is exactly `maxScore + recencyBoost`, and the schedule is a monotonically
decreasing function of age. -/
theorem recencyBoost_spec (groups : List (String × List Match)) (now : ℚ)
    (s : RankedSource) (hs : s ∈ rankSources groups now) :
    (s.recencyBoost =
      if s.ageInMinutes < 5 then 1 / 5
      else if s.ageInMinutes < 30 then 1 / 10
      else if s.ageInMinutes < 120 then 1 / 20
      else 0) ∧
    s.finalScore = s.maxScore + s.recencyBoost ∧
    ∀ a₁ a₂ : ℚ, a₁ ≤ a₂ → recencyBoostOf a₂ ≤ recencyBoostOf a₁ := by
  have hmem : s ∈ groups.map (mkRankedSource now) := by
    simpa [rankSources] using hs
  rcases List.mem_map.mp hmem with ⟨g, _, rfl⟩
  refine ⟨by simp [mkRankedSource, recencyBoostOf], by simp [mkRankedSource], ?_⟩
  intro a₁ a₂ h
  unfold recencyBoostOf
  split_ifs <;> linarith

/-- Witness for C6. -/
theorem recencyBoost_spec_witness :
    (wRS6.recencyBoost =
      if wRS6.ageInMinutes < 5 then 1 / 5
      else if wRS6.ageInMinutes < 30 then 1 / 10
      else if wRS6.ageInMinutes < 120 then 1 / 20
      else 0) ∧
    wRS6.finalScore = wRS6.maxScore + wRS6.recencyBoost ∧
    ∀ a₁ a₂ : ℚ, a₁ ≤ a₂ → recencyBoostOf a₂ ≤ recencyBoostOf a₁ :=
  recencyBoost_spec wGroups6 tOld wRS6
    (by simp [rankSources, wGroups6, wRS6, List.insertionSort])

/-- C10: for every non-generic (specific) nonempty query yielding at
least one raw match, the route's response carries an empty
`sourceBreakdown`: the specific branch's block-scoped `const
rankedSources` (route.ts line 180) shadows the outer `let` of line 142,
which is what the response mapping of lines 330-337 reads, so the
per-source relevance/finalScore/recencyBoost summary is never populated
for relevance-ranked results. -/
theorem sourceBreakdown_empty_specific (query : String)
    («matches» : List Match) (now : ℚ) (hq : query ≠ "")
    (hg : isGenericQuery query = false) (hm : «matches» ≠ []) :
    (postQueryRoute query «matches» now).sourceBreakdown = [] ∧
    (postQueryRoute query «matches» now).status = 200 := by
  have hlen : 0 < «matches».length := List.length_pos.mpr hm
  constructor <;> simp [postQueryRoute, hq, hg, hlen]

/-- Witness for C10. -/
theorem sourceBreakdown_empty_specific_witness :
    (postQueryRoute "what was the sentence of the defendant"
        [wP1, wP2, wQ1] tOld).sourceBreakdown = [] ∧
    (postQueryRoute "what was the sentence of the defendant"
        [wP1, wP2, wQ1] tOld).status = 200 :=
  sourceBreakdown_empty_specific "what was the sentence of the defendant"
    [wP1, wP2, wQ1] tOld (by decide) (by decide) (by simp)

/-- Every primary chunk comes from a match of its ranked source that
cleared the primary threshold. -/
theorem primaryChunksOf_mem (rs : RankedSource) (c : SelChunk)
    (hc : c ∈ primaryChunksOf rs) :
    c.isPrimary = true ∧ c.source = rs.source ∧
      c.score > min (rs.maxScore * (7 / 10)) (1 / 20) ∧
      c.text.isSome = true ∧
      ∃ m ∈ rs.matches, c = mkChunkFrom rs.source true m := by
  unfold primaryChunksOf at hc
  rcases List.mem_filter.mp hc with ⟨hmap, hsome⟩
  rcases List.mem_map.mp hmap with ⟨m, hm, rfl⟩
  rcases List.mem_filter.mp (List.mem_of_mem_take hm) with ⟨hmem, hsc⟩
  simp only [decide_eq_true_eq] at hsc
  exact ⟨rfl, rfl, hsc, hsome, m, hmem, rfl⟩

/-- Every secondary chunk comes from a match of its ranked source that
cleared the secondary threshold. -/
theorem secondaryChunksOf_mem (rs : RankedSource) (c : SelChunk)
    (hc : c ∈ secondaryChunksOf rs) :
    c.isPrimary = false ∧ c.source = rs.source ∧
      c.score > min (rs.maxScore * (4 / 5)) (2 / 25) ∧
      c.text.isSome = true ∧
      ∃ m ∈ rs.matches, c = mkChunkFrom rs.source false m := by
  unfold secondaryChunksOf at hc
  rcases List.mem_filter.mp hc with ⟨hmap, hsome⟩
  rcases List.mem_map.mp hmap with ⟨m, hm, rfl⟩
  rcases List.mem_filter.mp (List.mem_of_mem_take hm) with ⟨hmem, hsc⟩
  simp only [decide_eq_true_eq] at hsc
  exact ⟨rfl, rfl, hsc, hsome, m, hmem, rfl⟩

/-- At most `PRIMARY_SOURCE_CHUNKS = 8` primary chunks are kept. -/
theorem primaryChunksOf_length (rs : RankedSource) :
    (primaryChunksOf rs).length ≤ 8 := by
  unfold primaryChunksOf
  refine le_trans (List.length_filter_le _ _) ?_
  rw [List.length_map, List.length_take]
  exact le_trans (min_le_left _ _) (by norm_num [PRIMARY_SOURCE_CHUNKS])

/-- At most `SECONDARY_SOURCE_CHUNKS = 2` secondary chunks are kept. -/
theorem secondaryChunksOf_length (rs : RankedSource) :
    (secondaryChunksOf rs).length ≤ 2 := by
  unfold secondaryChunksOf
  refine le_trans (List.length_filter_le _ _) ?_
  rw [List.length_map, List.length_take]
  exact le_trans (min_le_left _ _) (by norm_num [SECONDARY_SOURCE_CHUNKS])

/-- Members of the primary accumulator come from the top-ranked source. -/
theorem fc1Of_mem (rss : List RankedSource) (c : SelChunk)
    (hc : c ∈ fc1Of rss) :
    ∃ rs0, rss.head? = some rs0 ∧ c ∈ primaryChunksOf rs0 := by
  unfold fc1Of at hc
  cases h : rss.head? with
  | none => rw [h] at hc; cases hc
  | some rs0 => rw [h] at hc; exact ⟨rs0, rfl, hc⟩

/-- Members of the second accumulator are primary chunks or secondary
chunks of an existing second-ranked source. -/
theorem fc2Of_mem (rss : List RankedSource) (c : SelChunk)
    (hc : c ∈ fc2Of rss) :
    c ∈ fc1Of rss ∨
      ∃ rs1, rss.get? 1 = some rs1 ∧ c ∈ secondaryChunksOf rs1 := by
  unfold fc2Of at hc
  cases h : rss.get? 1 with
  | none => rw [h] at hc; exact Or.inl hc
  | some rs1 =>
    rw [h] at hc
    dsimp only at hc
    by_cases hlt : (fc1Of rss).length < 4
    · rw [if_pos hlt] at hc
      rcases List.mem_append.mp hc with hc1 | hc2
      · exact Or.inl hc1
      · exact Or.inr ⟨rs1, rfl, hc2⟩
    · rw [if_neg hlt] at hc; exact Or.inl hc

/-- Keeping only the primary-flagged chunks of the second accumulator
recovers exactly the primary accumulator. -/
theorem fc2Of_filter_primary (rss : List RankedSource) :
    (fc2Of rss).filter (fun c => c.isPrimary) = fc1Of rss := by
  have hfc1 : (fc1Of rss).filter (fun c => c.isPrimary) = fc1Of rss := by
    refine List.filter_eq_self.mpr ?_
    intro c hc
    rcases fc1Of_mem rss c hc with ⟨rs0, _, hmem⟩
    exact (primaryChunksOf_mem rs0 c hmem).1
  unfold fc2Of
  cases h : rss.get? 1 with
  | none => exact hfc1
  | some rs1 =>
    dsimp only
    by_cases hlt : (fc1Of rss).length < 4
    · rw [if_pos hlt, List.filter_append, hfc1]
      have hsec : (secondaryChunksOf rs1).filter (fun c => c.isPrimary) = [] := by
        refine List.filter_eq_nil_iff.mpr ?_
        intro c hc
        simp [(secondaryChunksOf_mem rs1 c hc).1]
      rw [hsec, List.append_nil]
    · rw [if_neg hlt]; exact hfc1

/-- At most two secondary-flagged chunks survive in the second
accumulator. -/
theorem fc2Of_filter_secondary_length (rss : List RankedSource) :
    ((fc2Of rss).filter (fun c => !c.isPrimary)).length ≤ 2 := by
  have hfc1 : (fc1Of rss).filter (fun c => !c.isPrimary) = [] := by
    refine List.filter_eq_nil_iff.mpr ?_
    intro c hc
    rcases fc1Of_mem rss c hc with ⟨rs0, _, hmem⟩
    simp [(primaryChunksOf_mem rs0 c hmem).1]
  unfold fc2Of
  cases h : rss.get? 1 with
  | none => simp [hfc1]
  | some rs1 =>
    dsimp only
    by_cases hlt : (fc1Of rss).length < 4
    · rw [if_pos hlt, List.filter_append, hfc1, List.nil_append]
      exact le_trans (List.length_filter_le _ _) (secondaryChunksOf_length rs1)
    · simp [if_neg hlt, hfc1]

/-- C5: for every specific-strategy selection over a ranked source list:
primary-flagged chunks come from the top-ranked source and beat
`min(maxScore * 0.7, 0.05)`, at most 8 of them; secondary-flagged chunks
come from an existing second-ranked source and beat
`min(maxScore * 0.8, 0.08)`, at most 2 of them; secondary chunks appear
only when a second source exists and fewer than 4 primary chunks were
collected; and the output lists every primary chunk before every
secondary chunk, each group in descending score order. -/
theorem selectSpecific_spec (rss : List RankedSource) :
    (∀ c ∈ selectSpecific rss, c.isPrimary = true →
      ∃ rs0, rss.head? = some rs0 ∧ c.source = rs0.source ∧
        c.score > min (rs0.maxScore * (7 / 10)) (1 / 20)) ∧
    ((selectSpecific rss).filter (fun c => c.isPrimary)).length ≤ 8 ∧
    (∀ c ∈ selectSpecific rss, c.isPrimary = false →
      ∃ rs1, rss.get? 1 = some rs1 ∧ c.source = rs1.source ∧
        c.score > min (rs1.maxScore * (4 / 5)) (2 / 25)) ∧
    ((selectSpecific rss).filter (fun c => !c.isPrimary)).length ≤ 2 ∧
    ((rss.get? 1 = none ∨
        4 ≤ ((selectSpecific rss).filter (fun c => c.isPrimary)).length) →
      ∀ c ∈ selectSpecific rss, c.isPrimary = true) ∧
    (selectSpecific rss).Pairwise fun a b =>
      (b.isPrimary = true → a.isPrimary = true) ∧
      (a.isPrimary = b.isPrimary → b.score ≤ a.score) := by
  have hmem : ∀ c : SelChunk, c ∈ selectSpecific rss ↔ c ∈ fc2Of rss :=
    fun c => List.mem_insertionSort rChunk
  have hlenP : ((selectSpecific rss).filter (fun c => c.isPrimary)).length
      = (fc1Of rss).length := by
    rw [← fc2Of_filter_primary rss]
    exact ((List.perm_insertionSort rChunk (fc2Of rss)).filter _).length_eq
  refine ⟨?_, ?_, ?_, ?_, ?_, ?_⟩
  · intro c hc hp
    rcases fc2Of_mem rss c ((hmem c).mp hc) with h1 | ⟨rs1, _, h2⟩
    · rcases fc1Of_mem rss c h1 with ⟨rs0, hh, hmem0⟩
      rcases primaryChunksOf_mem rs0 c hmem0 with ⟨_, hsrc, hscore, _, _⟩
      exact ⟨rs0, hh, hsrc, hscore⟩
    · have hfalse := (secondaryChunksOf_mem rs1 c h2).1
      rw [hp] at hfalse
      cases hfalse
  · rw [hlenP]
    rcases h0 : rss.head? with _ | rs0
    · simp [fc1Of, h0]
    · simp only [fc1Of, h0]
      exact primaryChunksOf_length rs0
  · intro c hc hp
    rcases fc2Of_mem rss c ((hmem c).mp hc) with h1 | ⟨rs1, hh, h2⟩
    · rcases fc1Of_mem rss c h1 with ⟨rs0, _, hmem0⟩
      have htrue := (primaryChunksOf_mem rs0 c hmem0).1
      rw [hp] at htrue
      cases htrue
    · rcases secondaryChunksOf_mem rs1 c h2 with ⟨_, hsrc, hscore, _, _⟩
      exact ⟨rs1, hh, hsrc, hscore⟩
  · have heq : ((selectSpecific rss).filter (fun c => !c.isPrimary)).length
        = ((fc2Of rss).filter (fun c => !c.isPrimary)).length :=
      ((List.perm_insertionSort rChunk (fc2Of rss)).filter _).length_eq
    rw [heq]
    exact fc2Of_filter_secondary_length rss
  · intro hcond c hc
    have hfc2 : fc2Of rss = fc1Of rss := by
      unfold fc2Of
      rcases h1 : rss.get? 1 with _ | rs1
      · rfl
      · dsimp only
        rcases hcond with hnone | hge
        · rw [h1] at hnone
          cases hnone
        · have hnlt : ¬ (fc1Of rss).length < 4 := by
            rw [hlenP] at hge
            omega
          rw [if_neg hnlt]
    have hc1 : c ∈ fc1Of rss := by
      rw [← hfc2]
      exact (hmem c).mp hc
    rcases fc1Of_mem rss c hc1 with ⟨rs0, _, hmem0⟩
    exact (primaryChunksOf_mem rs0 c hmem0).1
  · refine (List.sorted_insertionSort rChunk (fc2Of rss)).imp ?_
    intro a b hab
    unfold rChunk cmpChunk at hab
    by_cases hpq : a.isPrimary = b.isPrimary
    · rw [if_neg (by simp [hpq])] at hab
      refine ⟨fun hb => by rw [hpq]; exact hb, fun _ => by linarith⟩
    · rw [if_pos (by simpa using hpq)] at hab
      have ha : a.isPrimary = true := by
        cases hA : a.isPrimary
        · rw [hA] at hab
          norm_num at hab
        · rfl
      exact ⟨fun _ => ha, fun heq => absurd heq hpq⟩

/-- Witness for C5, on a two-source input whose selection keeps two
primary and one secondary chunk. -/
theorem selectSpecific_spec_witness :
    ((selectSpecific (rankSources (groupByDocument [wP1, wP2, wQ1])
        tOld)).filter (fun c => c.isPrimary)).length ≤ 8 ∧
    ((selectSpecific (rankSources (groupByDocument [wP1, wP2, wQ1])
        tOld)).filter (fun c => !c.isPrimary)).length ≤ 2 ∧
    ((selectSpecific (rankSources (groupByDocument [wP1, wP2, wQ1])
        tOld)).Pairwise fun a b =>
      (b.isPrimary = true → a.isPrimary = true) ∧
      (a.isPrimary = b.isPrimary → b.score ≤ a.score)) ∧
    (mkChunkFrom "p.pdf" true wP1).score >
      min ((mkRankedSource tOld ("p.pdf", [wP1, wP2])).maxScore * (7 / 10))
        (1 / 20) := by
  have happ := selectSpecific_spec (rankSources (groupByDocument
    [wP1, wP2, wQ1]) tOld)
  refine ⟨happ.2.1, happ.2.2.2.1, happ.2.2.2.2.2, ?_⟩
  have hc : mkChunkFrom "p.pdf" true wP1 ∈
      selectSpecific (rankSources (groupByDocument [wP1, wP2, wQ1]) tOld) := by
    norm_num +decide [selectSpecific, fc2Of, fc1Of, primaryChunksOf,
      secondaryChunksOf, mkChunkFrom, rankSources, groupByDocument,
      insertGrouped, sourceKey, strOrElse, wP1, wP2, wQ1, mkM,
      List.insertionSort, List.orderedInsert, rRank, cmpRankedSource, rChunk,
      cmpChunk, mkRankedSource, listMax, score0, ts0, tOld, recencyBoostOf,
      List.foldl_cons, List.foldl_nil, abs_of_nonneg, abs_of_nonpos,
      min_def, PRIMARY_SOURCE_CHUNKS, SECONDARY_SOURCE_CHUNKS]
  rcases happ.1 (mkChunkFrom "p.pdf" true wP1) hc rfl with ⟨rs0, hh, _, hscore⟩
  have hrs0 : rs0 = mkRankedSource tOld ("p.pdf", [wP1, wP2]) := by
    have hhead : (rankSources (groupByDocument [wP1, wP2, wQ1]) tOld).head? =
        some (mkRankedSource tOld ("p.pdf", [wP1, wP2])) := by
      norm_num +decide [rankSources, groupByDocument, insertGrouped,
        sourceKey, strOrElse, wP1, wP2, wQ1, mkM, List.insertionSort,
        List.orderedInsert, rRank, cmpRankedSource, mkRankedSource, listMax,
        score0, ts0, tOld, recencyBoostOf, List.foldl_cons, List.foldl_nil,
        abs_of_nonneg, abs_of_nonpos]
    rw [hhead] at hh
    exact (Option.some.injEq _ _).mp hh.symm
  rw [← hrs0]
  exact hscore

/-- An element found at index `i` of a take-prefix sits at index `i` of
the underlying list. -/
theorem take_get?_some {α : Type} :
    ∀ (n i : ℕ) (l : List α) (x : α),
      (l.take n).get? i = some x → l.get? i = some x := by
  intro n
  induction n with
  | zero => intro i l x h; simp at h
  | succ n ih =>
    intro i l x h
    cases l with
    | nil => simp at h
    | cons a l' =>
      cases i with
      | zero => simpa using h
      | succ i => exact ih i l' x (by simpa using h)

/-- C9: selection never mutates chunk text.  In `selectOptimalChunks`
the chunk at index `i` carries verbatim the stored text of the match at
index `i` whenever that text is present; and every chunk the specific
selector outputs carries verbatim the stored text of one of the ranked
matches (its `text` is present, the null-text chunks having been
dropped). -/
theorem selection_text_roundtrip :
    (∀ («matches» : List Match) (maxChunks maxChars i : ℕ)
        (c : RecentOnly.ProcessedChunk) (t : String),
      (RecentOnly.selectOptimalChunks «matches» maxChunks maxChars).get? i =
        some c →
      ∀ m : Match, «matches».get? i = some m →
        m.metadata.bind Metadata.text = some t → c.text = t) ∧
    (∀ (rss : List RankedSource) (c : SelChunk), c ∈ selectSpecific rss →
      ∃ rs, rs ∈ rss ∧ ∃ m ∈ rs.matches,
        c.text = m.metadata.bind Metadata.text ∧ c.text.isSome = true) := by
  constructor
  · intro ms maxChunks maxChars i c t hc m hm ht
    unfold RecentOnly.selectOptimalChunks at hc
    rw [List.get?_map] at hc
    rcases Option.map_eq_some'.mp hc with ⟨m', hm', rfl⟩
    have hms : ms.get? i = some m' := take_get?_some maxChunks i ms m' hm'
    rw [hm] at hms
    injection hms with hmm
    subst hmm
    simp [ht]
  · intro rss c hc
    rcases fc2Of_mem rss c ((List.mem_insertionSort rChunk).mp hc)
      with h1 | ⟨rs1, hh, h2⟩
    · rcases fc1Of_mem rss c h1 with ⟨rs0, hh0, hmem0⟩
      rcases primaryChunksOf_mem rs0 c hmem0 with ⟨_, _, _, hsome, m, hm, rfl⟩
      exact ⟨rs0, List.mem_of_mem_head? (Option.mem_def.mpr hh0),
        m, hm, rfl, hsome⟩
    · rcases secondaryChunksOf_mem rs1 c h2 with ⟨_, _, _, hsome, m, hm, rfl⟩
      exact ⟨rs1, List.get?_mem hh, m, hm, rfl, hsome⟩

/-- Witness for C9. -/
theorem selection_text_roundtrip_witness :
    ({ text := "goodtext", score := 1 / 2, id := "g1", source := "a.pdf"
       chunkIndex := some 0, isPrimary := true } :
        RecentOnly.ProcessedChunk).text = "goodtext" :=
  selection_text_roundtrip.1 [wGood] 10 12000 0
    { text := "goodtext", score := 1 / 2, id := "g1", source := "a.pdf"
      chunkIndex := some 0, isPrimary := true }
    "goodtext" rfl wGood rfl rfl

/-- Entries produced by one timestamp upsert come from the old table or
are the upserted pair. -/
theorem upsertTs_mem :
    ∀ (acc : List (String × ℚ)) (k : String) (t : ℚ) (p : String × ℚ),
      p ∈ RecentOnly.upsertTs acc k t → p ∈ acc ∨ p = (k, t) := by
  intro acc
  induction acc with
  | nil =>
    intro k t p hp
    simp [RecentOnly.upsertTs] at hp
    exact Or.inr hp
  | cons q rest ih =>
    intro k t p hp
    rcases q with ⟨k₀, t₀⟩
    unfold RecentOnly.upsertTs at hp
    by_cases hk : k₀ = k
    · rw [if_pos hk] at hp
      by_cases hcond : t₀ = 0 ∨ t > t₀
      · rw [if_pos hcond] at hp
        rcases List.mem_cons.mp hp with h | h
        · exact Or.inr (by rw [h, hk])
        · exact Or.inl (List.mem_cons_of_mem _ h)
      · rw [if_neg hcond] at hp
        exact Or.inl hp
    · rw [if_neg hk] at hp
      rcases List.mem_cons.mp hp with h | h
      · exact Or.inl (List.mem_cons.mpr (Or.inl h))
      · rcases ih k t p h with h' | h'
        · exact Or.inl (List.mem_cons_of_mem _ h')
        · exact Or.inr h'

/-- A positive entry survives an upsert with at least its value. -/
theorem upsertTs_pos_persists :
    ∀ (acc : List (String × ℚ)) (k : String) (v : ℚ) (s : String) (t : ℚ),
      (s, t) ∈ acc → 0 < t →
      ∃ t', (s, t') ∈ RecentOnly.upsertTs acc k v ∧ t ≤ t' := by
  intro acc
  induction acc with
  | nil => intro k v s t h _; cases h
  | cons q rest ih =>
    intro k v s t hmem hpos
    rcases q with ⟨k₀, t₀⟩
    unfold RecentOnly.upsertTs
    by_cases hk : k₀ = k
    · rw [if_pos hk]
      by_cases hcond : t₀ = 0 ∨ v > t₀
      · rw [if_pos hcond]
        rcases List.mem_cons.mp hmem with h | h
        · have hts : s = k₀ ∧ t = t₀ := by
            constructor <;> [exact congrArg Prod.fst h;
              exact congrArg Prod.snd h]
          rcases hts with ⟨hs, ht⟩
          subst hs; subst ht
          rcases hcond with h0 | hlt
          · exact absurd h0 (by linarith)
          · exact ⟨v, List.mem_cons_self _ _, le_of_lt hlt⟩
        · exact ⟨t, List.mem_cons_of_mem _ h, le_refl t⟩
      · rw [if_neg hcond]
        exact ⟨t, hmem, le_refl t⟩
    · rw [if_neg hk]
      rcases List.mem_cons.mp hmem with h | h
      · exact ⟨t, List.mem_cons.mpr (Or.inl h), le_refl t⟩
      · rcases ih k v s t h hpos with ⟨t', hmem', hle⟩
        exact ⟨t', List.mem_cons_of_mem _ hmem', hle⟩

/-- After an upsert the key is present with at least the upserted
value. -/
theorem upsertTs_self :
    ∀ (acc : List (String × ℚ)) (k : String) (v : ℚ),
      ∃ t', (k, t') ∈ RecentOnly.upsertTs acc k v ∧ v ≤ t' := by
  intro acc
  induction acc with
  | nil => intro k v; exact ⟨v, by simp [RecentOnly.upsertTs], le_refl v⟩
  | cons q rest ih =>
    intro k v
    rcases q with ⟨k₀, t₀⟩
    unfold RecentOnly.upsertTs
    by_cases hk : k₀ = k
    · rw [if_pos hk]
      by_cases hcond : t₀ = 0 ∨ v > t₀
      · rw [if_pos hcond]
        exact ⟨v, by rw [hk]; exact List.mem_cons_self _ _, le_refl v⟩
      · rw [if_neg hcond]
        push_neg at hcond
        exact ⟨t₀, by rw [hk]; exact List.mem_cons_self _ _, hcond.2⟩
    · rw [if_neg hk]
      rcases ih k v with ⟨t', hmem, hle⟩
      exact ⟨t', List.mem_cons_of_mem _ hmem, hle⟩

/-- Every entry of the accumulated timestamp table comes from the
initial table or records the source key and effective timestamp of a
scanned match. -/
theorem docTimestampsAux_mem :
    ∀ (ms : List Match) (acc : List (String × ℚ)) (p : String × ℚ),
      p ∈ RecentOnly.docTimestampsAux acc ms →
      p ∈ acc ∨ ∃ m ∈ ms, sourceKey m = p.1 ∧ ts0 m = p.2 := by
  intro ms
  induction ms with
  | nil => intro acc p hp; exact Or.inl hp
  | cons m rest ih =>
    intro acc p hp
    rcases ih _ p hp with h | ⟨m', hm', hk, ht⟩
    · rcases upsertTs_mem acc (sourceKey m) (ts0 m) p h with h' | h'
      · exact Or.inl h'
      · refine Or.inr ⟨m, List.mem_cons_self _ _, ?_, ?_⟩
        · rw [h']
        · rw [h']
    · exact Or.inr ⟨m', List.mem_cons_of_mem _ hm', hk, ht⟩

/-- A positive entry survives the whole scan with at least its value. -/
theorem docTimestampsAux_pos_persists :
    ∀ (ms : List Match) (acc : List (String × ℚ)) (s : String) (t : ℚ),
      (s, t) ∈ acc → 0 < t →
      ∃ t', (s, t') ∈ RecentOnly.docTimestampsAux acc ms ∧ t ≤ t' := by
  intro ms
  induction ms with
  | nil => intro acc s t h _; exact ⟨t, h, le_refl t⟩
  | cons m rest ih =>
    intro acc s t hmem hpos
    rcases upsertTs_pos_persists acc (sourceKey m) (ts0 m) s t hmem hpos
      with ⟨t₁, hmem₁, hle₁⟩
    rcases ih _ s t₁ hmem₁ (lt_of_lt_of_le hpos hle₁) with ⟨t₂, hmem₂, hle₂⟩
    exact ⟨t₂, hmem₂, le_trans hle₁ hle₂⟩

/-- Each match with a positive effective timestamp leaves in the table
an entry under its source key at least as large. -/
theorem docTimestampsAux_covers :
    ∀ (ms : List Match) (acc : List (String × ℚ)) (m : Match),
      m ∈ ms → 0 < ts0 m →
      ∃ t', (sourceKey m, t') ∈ RecentOnly.docTimestampsAux acc ms ∧
        ts0 m ≤ t' := by
  intro ms
  induction ms with
  | nil => intro acc m h; cases h
  | cons m₀ rest ih =>
    intro acc m hm hpos
    rcases List.mem_cons.mp hm with h | h
    · subst h
      rcases upsertTs_self acc (sourceKey m) (ts0 m) with ⟨t₁, hmem₁, hle₁⟩
      rcases docTimestampsAux_pos_persists rest _ (sourceKey m) t₁ hmem₁
        (lt_of_lt_of_le hpos hle₁) with ⟨t₂, hmem₂, hle₂⟩
      exact ⟨t₂, hmem₂, le_trans hle₁ hle₂⟩
    · exact ih _ m h hpos

/-- The scan that picks the most recent entry never decreases its best
timestamp. -/
theorem pickStep_fold_mono :
    ∀ (entries : List (String × ℚ)) (acc : Option String × ℚ),
      acc.2 ≤ (entries.foldl pickStep acc).2 := by
  intro entries
  induction entries with
  | nil => intro acc; exact le_refl _
  | cons p rest ih =>
    intro acc
    refine le_trans ?_ (ih (pickStep acc p))
    unfold pickStep
    by_cases h : p.2 > acc.2
    · rw [if_pos h]; exact le_of_lt h
    · rw [if_neg h]

/-- The picked best timestamp dominates every scanned entry. -/
theorem pickStep_fold_dominates :
    ∀ (entries : List (String × ℚ)) (acc : Option String × ℚ)
      (p : String × ℚ), p ∈ entries →
      p.2 ≤ (entries.foldl pickStep acc).2 := by
  intro entries
  induction entries with
  | nil => intro acc p h; cases h
  | cons q rest ih =>
    intro acc p hp
    rcases List.mem_cons.mp hp with h | h
    · subst h
      refine le_trans ?_ (pickStep_fold_mono rest (pickStep acc p))
      unfold pickStep
      by_cases hgt : p.2 > acc.2
      · rw [if_pos hgt]
      · rw [if_neg hgt]; exact le_of_not_lt hgt
    · exact ih _ p h

/-- The scan result is the initial accumulator or one of the entries
(with its key). -/
theorem pickStep_fold_origin :
    ∀ (entries : List (String × ℚ)) (acc : Option String × ℚ),
      entries.foldl pickStep acc = acc ∨
      ∃ p ∈ entries, entries.foldl pickStep acc = (some p.1, p.2) := by
  intro entries
  induction entries with
  | nil => intro acc; exact Or.inl rfl
  | cons q rest ih =>
    intro acc
    by_cases hgt : q.2 > acc.2
    · have hstep : List.foldl pickStep acc (q :: rest) =
          List.foldl pickStep (some q.1, q.2) rest := by
        simp [List.foldl_cons, pickStep, hgt]
      rcases ih (some q.1, q.2) with h | ⟨p, hp, hres⟩
      · exact Or.inr ⟨q, List.mem_cons_self _ _, by rw [hstep, h]⟩
      · exact Or.inr ⟨p, List.mem_cons_of_mem _ hp, by rw [hstep, hres]⟩
    · have hstep : List.foldl pickStep acc (q :: rest) =
          List.foldl pickStep acc rest := by
        simp [List.foldl_cons, pickStep, hgt]
      rcases ih acc with h | ⟨p, hp, hres⟩
      · exact Or.inl (by rw [hstep, h])
      · exact Or.inr ⟨p, List.mem_cons_of_mem _ hp, by rw [hstep, hres]⟩

/-- When every entry is dominated by the accumulator, the scan changes
nothing. -/
theorem pickStep_fold_const :
    ∀ (entries : List (String × ℚ)) (acc : Option String × ℚ),
      (∀ p ∈ entries, p.2 ≤ acc.2) →
      entries.foldl pickStep acc = acc := by
  intro entries
  induction entries with
  | nil => intro acc _; rfl
  | cons q rest ih =>
    intro acc hall
    have hq : ¬ q.2 > acc.2 := not_lt.mpr (hall q (List.mem_cons_self _ _))
    have hstep : List.foldl pickStep acc (q :: rest) =
        List.foldl pickStep acc rest := by
      simp [List.foldl_cons, pickStep, hq]
    rw [hstep]
    exact ih acc fun p hp => hall p (List.mem_cons_of_mem _ hp)

/-- A member of a list is below its base-`0` fold maximum. -/
theorem foldMax0_mem_le : ∀ (l : List ℚ) (x : ℚ), x ∈ l → x ≤ foldMax0 l := by
  intro l
  induction l with
  | nil => intro x h; cases h
  | cons a rest ih =>
    intro x hx
    rcases List.mem_cons.mp hx with h | h
    · subst h; exact le_max_left _ _
    · exact le_trans (ih x h) (le_max_right _ _)

/-- The base-`0` fold maximum is nonnegative. -/
theorem foldMax0_nonneg : ∀ l : List ℚ, 0 ≤ foldMax0 l := by
  intro l
  induction l with
  | nil => exact le_refl 0
  | cons a rest ih => exact le_trans ih (le_max_right _ _)

/-- C4 (amended): the recent-document resolver of part_001 returns `none`
exactly when no sampled match has a positive effective timestamp (in
particular on the empty corpus, but also on a non-empty corpus whose
timestamps are all missing or `0`); when it returns a source, that source
occurs in the sample and its per-source maximum stored timestamp is
globally maximal: it dominates every sampled match's timestamp. -/
theorem getMostRecentDocument_spec (sample : List Match) :
    (RecentOnly.getMostRecentDocument sample = none ↔
      ∀ m ∈ sample, ts0 m ≤ 0) ∧
    ∀ s, RecentOnly.getMostRecentDocument sample = some s →
      (∃ m ∈ sample, sourceKey m = s) ∧
      ∀ m ∈ sample, ts0 m ≤ perSourceMax sample s := by
  cases sample with
  | nil =>
    constructor
    · simp [RecentOnly.getMostRecentDocument]
    · intro s hs
      simp [RecentOnly.getMostRecentDocument] at hs
  | cons m₁ rest =>
    have hval : RecentOnly.getMostRecentDocument (m₁ :: rest) =
        ((RecentOnly.documentTimestamps (m₁ :: rest)).foldl pickStep
          (none, 0)).1 := by
      simp [RecentOnly.getMostRecentDocument]
    constructor
    · constructor
      · intro hnone m hm
        by_contra hpos
        push_neg at hpos
        rcases docTimestampsAux_covers (m₁ :: rest) [] m hm hpos
          with ⟨t', hmem, hle⟩
        have hd : t' ≤ ((RecentOnly.documentTimestamps (m₁ :: rest)).foldl
            pickStep (none, 0)).2 :=
          pickStep_fold_dominates _ _ (sourceKey m, t') hmem
        rcases pickStep_fold_origin
            (RecentOnly.documentTimestamps (m₁ :: rest)) (none, 0)
          with h | ⟨p, _, h⟩
        · rw [h] at hd
          simp at hd
          linarith
        · rw [hval, h] at hnone
          simp at hnone
      · intro hall
        rw [hval, pickStep_fold_const _ _ ?_]
        intro p hp
        rcases docTimestampsAux_mem (m₁ :: rest) [] p hp
          with h | ⟨m, hm, _, ht⟩
        · cases h
        · rw [← ht]
          exact hall m hm
    · intro s hs
      rw [hval] at hs
      rcases pickStep_fold_origin
          (RecentOnly.documentTimestamps (m₁ :: rest)) (none, 0)
        with h | ⟨p, hp, h⟩
      · rw [h] at hs
        cases hs
      · rw [h] at hs
        have hps : p.1 = s := by
          simpa using hs
        rcases docTimestampsAux_mem (m₁ :: rest) [] p hp
          with hfalse | ⟨m₀, hm₀, hk₀, ht₀⟩
        · cases hfalse
        · have hp2max : p.2 ≤ perSourceMax (m₁ :: rest) s := by
            rw [← ht₀]
            apply foldMax0_mem_le
            apply List.mem_map.mpr
            exact ⟨m₀, List.mem_filter.mpr ⟨hm₀, by simp [hk₀, hps]⟩, rfl⟩
          refine ⟨⟨m₀, hm₀, by rw [hk₀, hps]⟩, ?_⟩
          intro m hm
          by_cases hpos : 0 < ts0 m
          · rcases docTimestampsAux_covers (m₁ :: rest) [] m hm hpos
              with ⟨t', hmem, hle⟩
            have hd := pickStep_fold_dominates
              (RecentOnly.documentTimestamps (m₁ :: rest))
              ((none : Option String), (0 : ℚ)) (sourceKey m, t') hmem
            rw [h] at hd
            simp at hd
            linarith
          · push_neg at hpos
            refine le_trans hpos (le_trans ?_ hp2max)
            have := pickStep_fold_mono
              (RecentOnly.documentTimestamps (m₁ :: rest))
              ((none : Option String), (0 : ℚ))
            rw [h] at this
            simpa using this

/-- Counterexample to C4 as stated: a one-match corpus whose stored
timestamp is `0` is not empty, yet the resolver returns `none`, because
its scan starts from the sentinel `(null, 0)` and only a strictly larger
timestamp can replace it. -/
theorem getMostRecentDocument_none_cex :
    RecentOnly.getMostRecentDocument [cex4Zero] = none ∧
    ([cex4Zero] : List Match) ≠ [] := by
  constructor
  · norm_num [RecentOnly.getMostRecentDocument,
      RecentOnly.documentTimestamps, RecentOnly.docTimestampsAux,
      RecentOnly.upsertTs, pickStep, sourceKey, strOrElse, ts0, cex4Zero,
      mkM, List.foldl_cons, List.foldl_nil]
  · simp

/-- Witness for the amended C4. -/
theorem getMostRecentDocument_spec_witness :
    RecentOnly.getMostRecentDocument ([] : List Match) = none ∧
    ts0 w4Pos ≤ perSourceMax [w4Pos] "a.pdf" := by
  constructor
  · exact (getMostRecentDocument_spec []).1.mpr (by simp)
  · refine ((getMostRecentDocument_spec [w4Pos]).2 "a.pdf" ?_).2 w4Pos
      (by simp)
    norm_num +decide [RecentOnly.getMostRecentDocument,
      RecentOnly.documentTimestamps, RecentOnly.docTimestampsAux,
      RecentOnly.upsertTs, pickStep, sourceKey, strOrElse, ts0, w4Pos, mkM,
      List.foldl_cons, List.foldl_nil]

/-- C7 (amended): whenever at least one match clears
`MIN_RELEVANCE_SCORE` (0.1), every chunk of the final selected context
scores at least `MIN_RELEVANCE_SCORE`.  (When no match clears it, the
route falls back to the first five raw matches, so sub-threshold chunks
can be selected — see the counterexample.) -/
theorem p1Selection_min_relevance (searchMatches : List Match)
    (h : ∃ m ∈ searchMatches, RecentOnly.MIN_RELEVANCE_SCORE ≤ score0 m) :
    ∀ c ∈ RecentOnly.p1Selection searchMatches,
      RecentOnly.MIN_RELEVANCE_SCORE ≤ c.score := by
  intro c hc
  unfold RecentOnly.p1Selection at hc
  dsimp only at hc
  rcases h with ⟨m, hm, hsc⟩
  have hmem : m ∈ searchMatches.filter
      (fun m => score0 m ≥ RecentOnly.MIN_RELEVANCE_SCORE) :=
    List.mem_filter.mpr ⟨hm, by simpa using hsc⟩
  have hlen : 0 < (searchMatches.filter
      (fun m => score0 m ≥ RecentOnly.MIN_RELEVANCE_SCORE)).length :=
    List.length_pos.mpr (List.ne_nil_of_mem hmem)
  rw [if_pos hlen] at hc
  unfold RecentOnly.selectOptimalChunks at hc
  rcases List.mem_map.mp hc with ⟨m', hm', rfl⟩
  have hm'' := List.mem_of_mem_take hm'
  rcases List.mem_filter.mp hm'' with ⟨_, hsc'⟩
  simp only [ge_iff_le, decide_eq_true_eq] at hsc'
  simpa [score0] using hsc'

/-- Counterexample to C7 as stated: a single search match scoring `0.05`
(below `MIN_RELEVANCE_SCORE = 0.1`) clears no filter, so selection falls
back to the raw matches and the final context carries a `0.05`-scoring
chunk. -/
theorem p1_min_relevance_cex :
    ((RecentOnly.p1Post "why" [w4Pos] lowFn).matchedChunks.map
      (fun c => c.score)) = [1 / 20] ∧
    ¬ (RecentOnly.MIN_RELEVANCE_SCORE ≤ 1 / 20) := by
  constructor
  · norm_num +decide [RecentOnly.p1Post, RecentOnly.p1Selection,
      RecentOnly.selectOptimalChunks, RecentOnly.getMostRecentDocument,
      RecentOnly.documentTimestamps, RecentOnly.docTimestampsAux,
      RecentOnly.upsertTs, RecentOnly.MIN_RELEVANCE_SCORE,
      RecentOnly.MAX_CHUNKS, RecentOnly.MAX_CONTEXT_CHARS, pickStep,
      sourceKey, strOrElse, score0, ts0, listMax, lowFn, cexLow, w4Pos, mkM,
      List.foldl_cons, List.foldl_nil]
  · norm_num [RecentOnly.MIN_RELEVANCE_SCORE]

/-- Witness for the amended C7. -/
theorem p1Selection_min_relevance_witness :
    RecentOnly.MIN_RELEVANCE_SCORE ≤
      (({ text := "goodtext", score := 1 / 2, id := "g1", source := "a.pdf"
          chunkIndex := some 0, isPrimary := true } :
            RecentOnly.ProcessedChunk)).score :=
  p1Selection_min_relevance [wGood]
    ⟨wGood, by simp, by
      norm_num [score0, wGood, mkM, RecentOnly.MIN_RELEVANCE_SCORE]⟩
    { text := "goodtext", score := 1 / 2, id := "g1", source := "a.pdf"
      chunkIndex := some 0, isPrimary := true }
    (by
      norm_num +decide [RecentOnly.p1Selection,
        RecentOnly.selectOptimalChunks, RecentOnly.MIN_RELEVANCE_SCORE,
        RecentOnly.MAX_CHUNKS, RecentOnly.MAX_CONTEXT_CHARS, score0,
        sourceKey, strOrElse, wGood, mkM])

/-- C8 (amended): under a non-empty query, the part_001 route returns a
normal HTTP-200 result in every branch; the empty-corpus outcome returns
zero chunks with a descriptive text (carried in an `error` field of a
200 response), and the zero-match outcome returns zero chunks with a
descriptive `contextMessage`.  (The claim's third "not found" condition —
matches present but none clearing the relevance filter — does NOT return
zero chunks: the route falls back to raw matches, see the
counterexample.) -/
theorem p1Post_not_found_spec (query : String) (sample : List Match)
    (searchFn : String → List Match) (hq : query ≠ "") :
    (RecentOnly.getMostRecentDocument sample = none →
      (RecentOnly.p1Post query sample searchFn).status = 200 ∧
      (RecentOnly.p1Post query sample searchFn).matchedChunks = [] ∧
      (RecentOnly.p1Post query sample searchFn).error =
        some "No documents found in the system") ∧
    (∀ d, RecentOnly.getMostRecentDocument sample = some d →
      searchFn d = [] →
      (RecentOnly.p1Post query sample searchFn).status = 200 ∧
      (RecentOnly.p1Post query sample searchFn).matchedChunks = [] ∧
      (RecentOnly.p1Post query sample searchFn).contextMessage.isSome =
        true) ∧
    (RecentOnly.p1Post query sample searchFn).status = 200 := by
  unfold RecentOnly.p1Post
  rw [if_neg hq]
  rcases hdoc : RecentOnly.getMostRecentDocument sample with _ | d
  · exact ⟨fun _ => ⟨rfl, rfl, rfl⟩, fun d hd => Option.noConfusion hd, rfl⟩
  · refine ⟨fun hnone => Option.noConfusion hnone, ?_, ?_⟩
    · intro d' hd' hempty
      have hdd : d = d' := by injection hd'
      subst hdd
      dsimp only
      rw [hempty]
      exact ⟨rfl, rfl, rfl⟩
    · dsimp only
      by_cases hse : (searchFn d).isEmpty
      · rw [if_pos hse]
      · rw [if_neg hse]

/-- Counterexample to C8 as stated: when matches exist but none clears
the relevance filter (one match scoring `0.05 < 0.1`), the claim calls
the outcome "not found" and demands zero chunks, yet the response
carries one fallback chunk. -/
theorem p1Post_not_found_cex :
    ((lowFn "a.pdf").filter
      (fun m => score0 m ≥ RecentOnly.MIN_RELEVANCE_SCORE)) = [] ∧
    (RecentOnly.p1Post "why" [w4Pos] lowFn).matchedChunks.length = 1 := by
  constructor
  · norm_num [lowFn, cexLow, mkM, score0, RecentOnly.MIN_RELEVANCE_SCORE]
  · norm_num +decide [RecentOnly.p1Post, RecentOnly.p1Selection,
      RecentOnly.selectOptimalChunks, RecentOnly.getMostRecentDocument,
      RecentOnly.documentTimestamps, RecentOnly.docTimestampsAux,
      RecentOnly.upsertTs, RecentOnly.MIN_RELEVANCE_SCORE,
      RecentOnly.MAX_CHUNKS, RecentOnly.MAX_CONTEXT_CHARS, pickStep,
      sourceKey, strOrElse, score0, ts0, listMax, lowFn, cexLow, w4Pos, mkM,
      List.foldl_cons, List.foldl_nil]

/-- Witness for the amended C8, at the empty corpus and at a document
with no search matches. -/
theorem p1Post_not_found_spec_witness :
    ((RecentOnly.p1Post "summary" [] emptyFn).status = 200 ∧
      (RecentOnly.p1Post "summary" [] emptyFn).matchedChunks = [] ∧
      (RecentOnly.p1Post "summary" [] emptyFn).error =
        some "No documents found in the system") ∧
    ((RecentOnly.p1Post "summary" [w4Pos] emptyFn).status = 200 ∧
      (RecentOnly.p1Post "summary" [w4Pos] emptyFn).matchedChunks = [] ∧
      (RecentOnly.p1Post "summary" [w4Pos] emptyFn).contextMessage.isSome =
        true) := by
  constructor
  · exact (p1Post_not_found_spec "summary" [] emptyFn (by decide)).1 rfl
  · refine (p1Post_not_found_spec "summary" [w4Pos] emptyFn (by decide)).2.1
      "a.pdf" ?_ rfl
    norm_num +decide [RecentOnly.getMostRecentDocument,
      RecentOnly.documentTimestamps, RecentOnly.docTimestampsAux,
      RecentOnly.upsertTs, pickStep, sourceKey, strOrElse, ts0, w4Pos, mkM,
      List.foldl_cons, List.foldl_nil]

/-- Elements of the deduplicated list occur in the input and not in the
seen-set. -/
theorem dedupAux_mem :
    ∀ (l seen : List String) (s : String),
      s ∈ dedupAux seen l → s ∈ l ∧ s ∉ seen := by
  intro l
  induction l with
  | nil => intro seen s h; cases h
  | cons a rest ih =>
    intro seen s h
    unfold dedupAux at h
    by_cases ha : a ∈ seen
    · rw [if_pos ha] at h
      rcases ih seen s h with ⟨h1, h2⟩
      exact ⟨List.mem_cons_of_mem _ h1, h2⟩
    · rw [if_neg ha] at h
      rcases List.mem_cons.mp h with h' | h'
      · subst h'
        exact ⟨List.mem_cons_self _ _, ha⟩
      · rcases ih _ s h' with ⟨h1, h2⟩
        exact ⟨List.mem_cons_of_mem _ h1,
          fun hs => h2 (List.mem_cons_of_mem _ hs)⟩

/-- First-occurrence deduplication produces a duplicate-free list. -/
theorem dedupAux_nodup : ∀ (l seen : List String), (dedupAux seen l).Nodup := by
  intro l
  induction l with
  | nil => intro seen; exact List.nodup_nil
  | cons a rest ih =>
    intro seen
    unfold dedupAux
    by_cases ha : a ∈ seen
    · rw [if_pos ha]
      exact ih seen
    · rw [if_neg ha]
      refine List.nodup_cons.mpr ⟨?_, ih _⟩
      intro hmem
      exact (dedupAux_mem rest (a :: seen) a hmem).2 (List.mem_cons_self _ _)

/-- C1 (amended, spec-modelled): in the orchestrator modelled from the
spec, a specific query escalates exactly when the best score in the most
recent document is below `PRIMARY_THRESHOLD` (0.2) — not merely below
`CONTEXT_SEARCH_THRESHOLD` (0.25) as the claim literally says, since
scores in `[0.2, 0.25)` are already accepted as sufficient by the earlier
branch.  Under escalation: if the best global score exceeds
`PRIMARY_THRESHOLD` the strategy is `cross_document_search` and the
reported alternative sources are duplicate-free, exclude the recent
document, and each names a global match scoring above
`PRIMARY_THRESHOLD`; otherwise the strategy is `topic_not_found` with
zero chunks. -/
theorem orchestrateSpecific_escalation_spec (recentDoc : String)
    (recentMatches globalMatches : List Match) (now : ℚ)
    (h : listMax (recentMatches.map score0) < PRIMARY_THRESHOLD) :
    (listMax (globalMatches.map score0) > PRIMARY_THRESHOLD →
      (orchestrateSpecific recentDoc recentMatches globalMatches
          now).searchStrategy = "cross_document_search" ∧
      (orchestrateSpecific recentDoc recentMatches globalMatches
          now).alternativeSources.Nodup ∧
      ∀ s ∈ (orchestrateSpecific recentDoc recentMatches globalMatches
          now).alternativeSources,
        s ≠ recentDoc ∧ ∃ m ∈ globalMatches, sourceKey m = s ∧
          score0 m > PRIMARY_THRESHOLD) ∧
    (listMax (globalMatches.map score0) ≤ PRIMARY_THRESHOLD →
      (orchestrateSpecific recentDoc recentMatches globalMatches
          now).searchStrategy = "topic_not_found" ∧
      (orchestrateSpecific recentDoc recentMatches globalMatches
          now).matchedChunks = []) := by
  have hnge : ¬ (listMax (recentMatches.map score0) ≥ PRIMARY_THRESHOLD) :=
    not_le.mpr h
  have hlt : listMax (recentMatches.map score0) < CONTEXT_SEARCH_THRESHOLD := by
    unfold PRIMARY_THRESHOLD at h
    unfold CONTEXT_SEARCH_THRESHOLD
    linarith
  unfold orchestrateSpecific
  dsimp only
  rw [if_neg hnge, if_pos hlt]
  constructor
  · intro hg
    rw [if_pos hg]
    refine ⟨rfl, dedupAux_nodup _ _, ?_⟩
    intro s hs
    rcases dedupAux_mem _ _ s hs with ⟨hmem, _⟩
    rcases List.mem_filter.mp hmem with ⟨hmap, hne⟩
    rcases List.mem_map.mp hmap with ⟨m, hm, rfl⟩
    rcases List.mem_filter.mp hm with ⟨hmem', hsc⟩
    simp only [decide_eq_true_eq] at hne hsc
    exact ⟨hne, m, hmem', rfl, hsc⟩
  · intro hg
    rw [if_neg (not_lt.mpr hg)]
    exact ⟨rfl, rfl⟩

/-- Counterexample to C1 as stated: a recent-document best score of
`0.22` is below `CONTEXT_SEARCH_THRESHOLD = 0.25` and a strong global
match exists, so the claim demands escalation with
`cross_document_search`; but the modelled orchestrator accepts the
recent document as sufficient first (`0.22 ≥ PRIMARY_THRESHOLD = 0.2`),
so no escalation happens. -/
theorem orchestrateSpecific_escalation_cex :
    listMax ([cex1R].map score0) < CONTEXT_SEARCH_THRESHOLD ∧
    listMax ([cex1G].map score0) > PRIMARY_THRESHOLD ∧
    (orchestrateSpecific "new.pdf" [cex1R] [cex1G] tOld).searchStrategy =
      "recent_document_sufficient" := by
  refine ⟨by norm_num [listMax, score0, cex1R, mkM, CONTEXT_SEARCH_THRESHOLD],
    by norm_num [listMax, score0, cex1G, mkM, PRIMARY_THRESHOLD], ?_⟩
  norm_num [orchestrateSpecific, listMax, score0, cex1R, cex1G, mkM,
    PRIMARY_THRESHOLD, CONTEXT_SEARCH_THRESHOLD]

/-- Witness for the amended C1. -/
theorem orchestrateSpecific_escalation_spec_witness :
    (orchestrateSpecific "new.pdf" [w1R] [cex1G] tOld).searchStrategy =
      "cross_document_search" ∧
    (orchestrateSpecific "new.pdf" [w1R] [cex1G]
      tOld).alternativeSources.Nodup := by
  have happ := orchestrateSpecific_escalation_spec "new.pdf" [w1R] [cex1G]
    tOld (by norm_num [listMax, score0, w1R, mkM, PRIMARY_THRESHOLD])
  have hg : listMax ([cex1G].map score0) > PRIMARY_THRESHOLD := by
    norm_num [listMax, score0, cex1G, mkM, PRIMARY_THRESHOLD]
  exact ⟨(happ.1 hg).1, (happ.1 hg).2.1⟩
